import Mathlib

/-!
Shallow embedding of the HTTP/1.1 client core of `src/http.cpp`
(URL parsing, line reading, chunk-size parsing, header scanning and
framing selection, redirect resolution, resume / output-file selection,
the worker's redirect loop, and the result accessor).

Byte streams are modelled as `List Char` (the source works on ASCII
bytes); machine integers as `Nat` / `Int` with explicit wrapping where
the source can overflow.  Network input is modelled as the list of
bytes a connection delivers before EOF; `read` errors and EOF coincide
in this model (the source treats `n <= 0` uniformly at every site the
theorems below touch).  The worker model covers the execution in which
no output file is configured; the output-file selection logic is
embedded separately as `selectOutput`.
-/

namespace Spry

/-- Lower-case a single ASCII character, as the source's repeated
`c >= 'A' && c <= 'Z' ? c + 32 : c` idiom. -/
def asciiLower (c : Char) : Char :=
  if 'A' ≤ c ∧ c ≤ 'Z' then Char.ofNat (c.toNat + 32) else c

/-- Case-insensitive equality of two byte strings, from the `ci_eq`
lambda in `_http_worker` (compares `n` characters after lower-casing;
the call sites guarantee equal lengths via the `name_len` check). -/
def ci_eq (a b : List Char) : Bool :=
  a.map asciiLower = b.map asciiLower

/-- `_hex_to_u64` from `src/http.cpp`: parse a hex string to u64.
Faithful to the source: `val <<= 4` executes before the character is
classified, so on the terminating non-hex character the already-shifted
value is returned. -/
def hex_to_u64_loop : List Char → Nat → Nat
  | [], val => val
  | c :: s, val =>
    let val2 := (val <<< 4) % 2 ^ 64
    if '0' ≤ c ∧ c ≤ '9' then hex_to_u64_loop s (val2 ||| (c.toNat - '0'.toNat))
    else if 'a' ≤ c ∧ c ≤ 'f' then hex_to_u64_loop s (val2 ||| (c.toNat - 'a'.toNat + 10))
    else if 'A' ≤ c ∧ c ≤ 'F' then hex_to_u64_loop s (val2 ||| (c.toNat - 'A'.toNat + 10))
    else val2

/-- Entry point of `_hex_to_u64`. -/
def hex_to_u64 (s : List Char) : Nat :=
  hex_to_u64_loop s 0

/-- Whether a character is an ASCII hex digit (spec-side notion). -/
def isHexDigit (c : Char) : Bool :=
  ('0' ≤ c ∧ c ≤ '9') ∨ ('a' ≤ c ∧ c ≤ 'f') ∨ ('A' ≤ c ∧ c ≤ 'F')

/-- Value of one hex digit (spec-side notion). -/
def hexDigitVal (c : Char) : Nat :=
  if '0' ≤ c ∧ c ≤ '9' then c.toNat - '0'.toNat
  else if 'a' ≤ c ∧ c ≤ 'f' then c.toNat - 'a'.toNat + 10
  else c.toNat - 'A'.toNat + 10

/-- Modelled from the spec: the numeric value of the maximal leading
hexadecimal prefix of a string ("stop at the first non-hex character"),
the value the chunk-size parser is specified to produce. -/
def hexPrefixVal : List Char → Nat → Nat
  | [], acc => acc
  | c :: s, acc =>
    if isHexDigit c then hexPrefixVal s (acc * 16 + hexDigitVal c) else acc

/-- `_read_line` from `src/http.cpp`, on a finite byte stream: returns
the line together with the unread remainder of the stream, or `none`
when the stream ends before a terminating CRLF (the source returns
`false` there, having consumed the stream byte by byte). -/
def read_line : List Char → Option (List Char × List Char)
  | [] => none
  | c :: rest =>
    if c = '\r' then
      match rest with
      | [] => none
      | c2 :: rest2 =>
        if c2 = '\n' then some ([], rest2)
        else
          match read_line rest2 with
          | some (l, r) => some ('\r' :: c2 :: l, r)
          | none => none
    else
      match read_line rest with
      | some (l, r) => some (c :: l, r)
      | none => none

theorem read_line_length_bounded :
    ∀ (n : Nat) (s : List Char), s.length ≤ n →
      ∀ l r, read_line s = some (l, r) → l.length + 2 + r.length = s.length := by
  intro n
  induction n with
  | zero =>
    intro s hs l r h
    match s, hs with
    | [], _ => simp [read_line] at h
  | succ n ih =>
    intro s hs l r h
    match s with
    | [] => simp [read_line] at h
    | c :: rest =>
      by_cases hc : c = '\r'
      · subst hc
        match rest with
        | [] => simp [read_line] at h
        | c2 :: rest2 =>
          by_cases hc2 : c2 = '\n'
          · subst hc2
            simp [read_line] at h
            obtain ⟨h1, h2⟩ := h
            subst h1; subst h2
            simp; omega
          · simp only [read_line, if_pos rfl, if_neg hc2] at h
            cases hrl : read_line rest2 with
            | none => rw [hrl] at h; simp at h
            | some p =>
              obtain ⟨l0, r0⟩ := p
              rw [hrl] at h
              simp at h
              obtain ⟨h1, h2⟩ := h
              subst h1; subst h2
              have hlen : rest2.length ≤ n := by simp at hs; omega
              have := ih rest2 hlen l0 r0 hrl
              simp only [List.length_cons]
              omega
      · rw [read_line.eq_def] at h
        simp only [if_neg hc] at h
        cases hrl : read_line rest with
        | none => rw [hrl] at h; simp at h
        | some p =>
          obtain ⟨l0, r0⟩ := p
          rw [hrl] at h
          simp at h
          obtain ⟨h1, h2⟩ := h
          subst h1; subst h2
          have hlen : rest.length ≤ n := by simp at hs; omega
          have := ih rest hlen l0 r0 hrl
          simp only [List.length_cons]
          omega

theorem read_line_length (s : List Char) :
    ∀ l r, read_line s = some (l, r) → l.length + 2 + r.length = s.length :=
  read_line_length_bounded s.length s (Nat.le_refl _)

theorem read_line_rest_lt (s : List Char) (l r : List Char)
    (h : read_line s = some (l, r)) : r.length + 2 ≤ s.length := by
  have := read_line_length s l r h
  omega

/-- Reading and discarding a trailing CRLF line, as the source's
`_read_line(&conn, &line)` calls whose boolean result is ignored:
on failure the connection is simply at EOF (everything consumed). -/
def discardLine (s : List Char) : List Char :=
  match read_line s with
  | some (_, r) => r
  | none => []

theorem discardLine_le (s : List Char) : (discardLine s).length ≤ s.length := by
  unfold discardLine
  cases h : read_line s with
  | none => simp
  | some p =>
    obtain ⟨l, r⟩ := p
    have := read_line_length s l r h
    simp
    omega

/-- C `isspace` over ASCII, as consulted by `strtol` / `strtoll`. -/
def isSpaceC (c : Char) : Bool :=
  c = ' ' ∨ c = '\t' ∨ c = '\n' ∨ c = '\x0b' ∨ c = '\x0c' ∨ c = '\r'

/-- ASCII decimal digit test. -/
def isDigitC (c : Char) : Bool :=
  '0' ≤ c ∧ c ≤ '9'

/-- Accumulate a decimal digit string into a natural number. -/
def natOfDigits (l : List Char) : Nat :=
  l.foldl (fun acc c => acc * 10 + (c.toNat - '0'.toNat)) 0

/-- Sign handling of `strtol`: one leading `-` or `+` is consumed and
`-` marks the result negative. -/
def strtolSign : List Char → Bool × List Char
  | '-' :: t => (true, t)
  | '+' :: t => (false, t)
  | t => (false, t)

/-- C `strtol` / `strtoll` in base 10 on an LP64 platform (`long` and
`long long` are both 64-bit): skip whitespace, optional sign, maximal
run of decimal digits (none parses as 0), clamped to the 64-bit range
on overflow. -/
def strtol64 (s : List Char) : Int :=
  let signed := strtolSign (s.dropWhile (fun c => isSpaceC c))
  let mag : Int := (natOfDigits (signed.2.takeWhile (fun c => isDigitC c)) : Int)
  let v : Int := if signed.1 then -mag else mag
  if v > 2 ^ 63 - 1 then 2 ^ 63 - 1
  else if v < -(2 ^ 63) then -(2 ^ 63)
  else v

/-- The digit run `strtol64` actually converts (empty when the input
has no parsable integer). -/
def strtolDigits (s : List Char) : List Char :=
  ((strtolSign (s.dropWhile (fun c => isSpaceC c))).2).takeWhile (fun c => isDigitC c)

/-- Truncating cast from `long` to `int` (the `(int)strtol(...)` in the
status-line parse). -/
def toInt32 (v : Int) : Int :=
  (v + 2 ^ 31) % 2 ^ 32 - 2 ^ 31

/-- Status-code extraction from the status line in `_http_worker`:
skip the first run of non-space characters, skip spaces, then
`(int)strtol(p, nullptr, 10)`. -/
def parseStatusCode (line : List Char) : Int :=
  toInt32 (strtol64 ((line.dropWhile (fun c => c ≠ ' ')).dropWhile (fun c => c = ' ')))

/-- Index of the first occurrence of a character, as C `strchr`
(position instead of pointer). -/
def strchrIdx (c : Char) : List Char → Option Nat
  | [] => none
  | x :: xs => if x = c then some 0 else (strchrIdx c xs).map (· + 1)

/-- The three header fields extracted by `_http_worker`'s header loop. -/
structure HeaderInfo where
  content_length : Int
  chunked : Bool
  location : List Char
deriving DecidableEq

/-- Initial values: `content_length = -1`, `chunked = false`, empty
`location` buffer. -/
def initHeaderInfo : HeaderInfo :=
  { content_length := -1, chunked := false, location := [] }

/-- C `strstr(hay, needle)` as a Boolean: does `needle` occur as a
contiguous substring of `hay`? -/
def strstrB (hay needle : List Char) : Bool :=
  if needle.isPrefixOf hay then true
  else
    match hay with
    | [] => false
    | _ :: t => strstrB t needle

/-- One iteration of the header loop in `_http_worker`: find the first
colon; when present, compare the name case-insensitively against the
three recognised fields and record the value (`content-length` via
`strtoll`, `transfer-encoding` by searching for the substrings
`chunked` / `Chunked`, `location` via a truncating `snprintf` into a
2048-byte buffer). -/
def scanHeader (info : HeaderInfo) (line : List Char) : HeaderInfo :=
  match strchrIdx ':' line with
  | none => info
  | some ci =>
    let name := line.take ci
    let val := (line.drop (ci + 1)).dropWhile (fun c => c = ' ')
    let info1 :=
      if name.length = 14 ∧ ci_eq name ("content-length".toList) then
        { info with content_length := strtol64 val }
      else info
    let info2 :=
      if name.length = 17 ∧ ci_eq name ("transfer-encoding".toList) then
        if strstrB val ("chunked".toList) ∨ strstrB val ("Chunked".toList) then
          { info1 with chunked := true }
        else info1
      else info1
    if name.length = 8 ∧ ci_eq name ("location".toList) then
      { info2 with location := val.take 2047 }
    else info2

/-- Fold of `scanHeader` over all header lines of a response. -/
def scanHeaders (lines : List (List Char)) : HeaderInfo :=
  lines.foldl scanHeader initHeaderInfo

/-- `_read_exact` on a finite stream: succeeds iff at least `n` bytes
remain, returning the bytes and the remainder (on EOF short of `n` the
source returns `false` and the worker errors out). -/
def read_exact (s : List Char) (n : Nat) : Option (List Char × List Char) :=
  if n ≤ s.length then some (s.take n, s.drop n) else none

theorem read_exact_some {s : List Char} {n : Nat} {d r : List Char}
    (h : read_exact s n = some (d, r)) :
    d = s.take n ∧ r = s.drop n ∧ n ≤ s.length := by
  unfold read_exact at h
  split at h
  · simp at h
    exact ⟨h.1.symm, h.2.symm, by assumption⟩
  · simp at h

/-- Outcome of the body-reading phase of `_http_worker`. -/
inductive BodyResult where
  | ok (body : List Char)
  | err (msg : List Char)
deriving DecidableEq

/-- The chunked-body loop of `_http_worker` (in-memory destination):
read a line; if that fails, break out of the loop (NOT an error in the
source); parse the chunk size with `_hex_to_u64`; size zero discards
one trailing line and finishes; otherwise read exactly `size` bytes
(failure here IS an error) and discard the chunk's trailing CRLF line,
ignoring its result.  `fuel` only bounds the recursion (each iteration
consumes at least three stream bytes, so the entry point's fuel is
never exhausted). -/
def readChunkedLoopF : Nat → List Char → List Char → BodyResult
  | 0, _, acc => .ok acc
  | fuel + 1, s, acc =>
    match read_line s with
    | none => .ok acc
    | some (line, r) =>
      let size := hex_to_u64 line
      if size = 0 then .ok acc
      else
        match read_exact r size with
        | none => .err ("failed to read chunked body".toList)
        | some (data, r2) => readChunkedLoopF fuel (discardLine r2) (acc ++ data)

/-- Entry point of the chunked-body loop. -/
def readChunkedLoop (s acc : List Char) : BodyResult :=
  readChunkedLoopF (s.length + 1) s acc

/-- Body reading per framing, from the `if (chunked) ... else if
(content_length >= 0) ... else ...` chain in `_http_worker` (in-memory
destination): chunked loop, exact `content_length` bytes (cast to u64),
or read-to-close (everything until EOF, which is success). -/
def readBody (chunked : Bool) (content_length : Int) (s : List Char) : BodyResult :=
  if chunked then readChunkedLoop s []
  else if 0 ≤ content_length then
    match read_exact s content_length.toNat with
    | some (b, _) => .ok b
    | none => .err ("failed to read body".toList)
  else .ok s

/-- Result of `_url_parse` (the `ParsedUrl` struct): scheme flag,
host (≤255 bytes), port (≤7 bytes), path (≤2047 bytes). -/
structure ParsedUrl where
  https : Bool
  host : List Char
  port : List Char
  path : List Char
deriving DecidableEq

/-- Body of `_url_parse` after the scheme prefix has been stripped:
locate the first `/` and the first `:`; a colon after the first slash
is not a port separator; split host/port/path accordingly, failing when
host or port overflow their buffers; the path is what `snprintf` leaves
in a 2048-byte buffer (truncation, not failure); missing path is `/`
and missing port is the scheme default. -/
def urlParseAfterScheme (https : Bool) (u : List Char) : Option ParsedUrl :=
  let slash := strchrIdx '/' u
  let colon0 := strchrIdx ':' u
  let colon : Option Nat :=
    match colon0, slash with
    | some ci, some si => if si < ci then none else some ci
    | x, _ => x
  match colon with
  | some ci =>
    let host := u.take ci
    if 256 ≤ host.length then none
    else
      let portEnd := match slash with | some si => si | none => u.length
      let port := (u.drop (ci + 1)).take (portEnd - (ci + 1))
      if 8 ≤ port.length then none
      else
        let path := match slash with
          | some si => (u.drop si).take 2047
          | none => "/".toList
        some { https := https, host := host, port := port, path := path }
  | none =>
    let hostEnd := match slash with | some si => si | none => u.length
    let host := u.take hostEnd
    if 256 ≤ host.length then none
    else
      let port := (if https then "443" else "80").toList
      let path := match slash with
        | some si => (u.drop si).take 2047
        | none => "/".toList
      some { https := https, host := host, port := port, path := path }

/-- `_url_parse` from `src/http.cpp`: accept `https://` or `http://`,
then split `host[:port]/path`. -/
def url_parse (url : List Char) : Option ParsedUrl :=
  if url.take 8 = ("https://".toList) then urlParseAfterScheme true (url.drop 8)
  else if url.take 7 = ("http://".toList) then urlParseAfterScheme false (url.drop 7)
  else none

/-- The scheme prefix re-rendered from the scheme flag. -/
def schemeStr (https : Bool) : List Char :=
  (if https then "https://" else "http://").toList

/-- Modelled from the spec: the obvious URL formatter
`scheme://host[:port]path` with the port as parsed (always rendered,
which parses back identically whether or not it is the default). -/
def urlFormat (p : ParsedUrl) : List Char :=
  schemeStr p.https ++ p.host ++ ':' :: p.port ++ p.path

/-- The port-differs-from-scheme-default condition computed (twice) in
the redirect `snprintf` of `_http_worker`. -/
def portNonDefault (u : ParsedUrl) : Bool :=
  (u.https ∧ u.port ≠ ("443".toList)) ∨ (¬u.https ∧ u.port ≠ ("80".toList))

/-- Redirect URL resolution in `_http_worker`: a `Location` beginning
with `/` is combined as scheme + host + (`:` + port when non-default) +
location; anything else replaces the URL wholesale (`_strdup`). -/
def resolveRedirect (url : ParsedUrl) (location : List Char) : List Char :=
  if location.head? = some '/' then
    schemeStr url.https ++ url.host ++
      (if portNonDefault url then [':'] else []) ++
      (if portNonDefault url then url.port else []) ++ location
  else location

/-- The redirect-class test in `_http_worker`:
`(status >= 301 && status <= 303) || status == 307 || status == 308`. -/
def isRedirectStatus (st : Int) : Bool :=
  (301 ≤ st ∧ st ≤ 303) ∨ st = 307 ∨ st = 308

/-- `readHeaders` models the header loop: read lines until the empty
line, returning them plus the unread remainder; EOF mid-headers is a
failure ("failed to read headers").  `fuel` only bounds the recursion
(each line consumes at least two stream bytes). -/
def readHeadersF : Nat → List Char → Option (List (List Char) × List Char)
  | 0, _ => none
  | fuel + 1, s =>
    match read_line s with
    | none => none
    | some (line, r) =>
      if line = [] then some ([], r)
      else
        match readHeadersF fuel r with
        | none => none
        | some (ls, r2) => some (line :: ls, r2)

/-- Entry point of the header loop. -/
def readHeaders (s : List Char) : Option (List (List Char) × List Char) :=
  readHeadersF (s.length + 1) s

/-- The raw response-headers buffer: each line followed by `\n`. -/
def renderRawHeaders (lines : List (List Char)) : List Char :=
  lines.foldl (fun acc l => acc ++ l ++ ['\n']) []

/-- `MAX_REDIRECTS` from `_http_worker`. -/
def MAX_REDIRECTS : Nat := 10

/-- Observable outcome of a `_http_worker` run: the terminal lifecycle
value (`1` = done, `2` = error), the request fields it publishes, and
the list of `(method, URL)` requests actually transmitted. -/
structure WorkerOut where
  state : Nat
  status_code : Int
  body : List Char
  headers_raw : List Char
  error : List Char
  issued : List (List Char × List Char)
deriving DecidableEq

/-- The redirect loop of `_http_worker` (no output file configured),
driven by `responses`, the byte stream each successive connection
delivers.  Connection setup and request transmission are assumed to
succeed (their failure paths depend only on the network layer, not on
the response bytes the claims are about); `issued` records each
transmitted request.  `rc` is the loop counter of
`for (redirect_count = 0; redirect_count <= MAX_REDIRECTS; ...)` and
the first argument is the number of loop iterations it still permits
(`MAX_REDIRECTS + 1 - rc`); its exhaustion is the loop condition
`rc <= MAX_REDIRECTS` failing, which produces the "too many redirects"
error. -/
def workerLoopF (responses : Nat → List Char) :
    Nat → List Char → List Char → Nat → Int → List (List Char × List Char) → WorkerOut
  | 0, _, _, _, st0, issued =>
    { state := 2, status_code := st0, body := [], headers_raw := [],
      error := ("too many redirects (max 10)".toList), issued := issued }
  | fuel + 1, method, url, rc, st0, issued =>
    match url_parse url with
    | none =>
      { state := 2, status_code := st0, body := [], headers_raw := [],
        error := ("invalid URL: ".toList ++ url), issued := issued }
    | some purl =>
      let issued2 := issued ++ [(method, url)]
      match read_line (responses rc) with
      | none =>
        { state := 2, status_code := st0, body := [], headers_raw := [],
          error := ("failed to read status line".toList), issued := issued2 }
      | some (statusLine, rest) =>
        let st := parseStatusCode statusLine
        match readHeaders rest with
        | none =>
          { state := 2, status_code := st, body := [], headers_raw := [],
            error := ("failed to read headers".toList), issued := issued2 }
        | some (hlines, rest2) =>
          let info := scanHeaders hlines
          if isRedirectStatus st ∧ info.location ≠ [] then
            workerLoopF responses fuel (if st = 303 then ("GET".toList) else method)
              (resolveRedirect purl info.location) (rc + 1) st issued2
          else
            match readBody info.chunked info.content_length rest2 with
            | .ok b =>
              { state := 1, status_code := st, body := b,
                headers_raw := renderRawHeaders hlines, error := [], issued := issued2 }
            | .err m =>
              { state := 2, status_code := st, body := [],
                headers_raw := renderRawHeaders hlines, error := m, issued := issued2 }

/-- Entry point: the worker starts with `redirect_count = 0` and
`status_code = 0`; the fuel `MAX_REDIRECTS + 1` is exactly the number
of iterations `for (redirect_count = 0; redirect_count <= MAX_REDIRECTS;
redirect_count++)` can perform, so fuel exhaustion is precisely the
loop falling through to the too-many-redirects error. -/
def workerRun (responses : Nat → List Char) (method url : List Char) : WorkerOut :=
  workerLoopF responses (MAX_REDIRECTS + 1) method url 0 0 []

/-- The output-file / progress decision `_http_worker` makes once
redirects have settled, in the no-override case with an output path
present (assuming `fopen` succeeds): file mode (`true` = append
`"ab"`, `false` = truncate `"wb"`), the stored downloaded counter, the
stored total, and the resume offset afterwards. -/
structure OutputSel where
  append : Bool
  downloaded : Int
  total : Int
  resume : Int
deriving DecidableEq

/-- The body of `if (!out_file && req->output_path) { ... }` in
`_http_worker`: 206 with a positive resume offset appends and pre-seeds
the counters; every other status truncates and clears the resume
offset. `prevDownloaded` / `prevTotal` are the counter values already
stored (the total was set from the `Content-Length` header). -/
def selectOutput (resume_offset : Int) (status : Int) (content_length : Int)
    (prevDownloaded : Int) (prevTotal : Int) : OutputSel :=
  if 0 < resume_offset ∧ status = 206 then
    { append := true,
      downloaded := resume_offset,
      total := if 0 ≤ content_length then content_length + resume_offset else prevTotal,
      resume := resume_offset }
  else
    { append := false, downloaded := prevDownloaded, total := prevTotal, resume := 0 }

/-- A snapshot of the `HttpRequest` fields `mt_http_request_result`
reads: the lifecycle word (`0` running, `1` done, `2` error), whether
an output path was configured, and the published response fields. -/
structure ReqSnapshot where
  state : Nat
  has_output_path : Bool
  body : List Char
  headers_raw : List Char
  status_code : Int
  error : List Char

/-- `_push_headers_table`: split the raw headers buffer on `\n`; for
each segment with a colon, push (name lowercased and truncated to 255
bytes, value after the colon with leading spaces skipped). -/
def pushHeadersOne (seg : List Char) : Option (List Char × List Char) :=
  match strchrIdx ':' seg with
  | none => none
  | some ci =>
    let name := seg.take ci
    let val := (seg.drop (ci + 1)).dropWhile (fun c => c = ' ')
    some ((name.take 255).map asciiLower, val)

theorem strchrIdx_lt_length {c : Char} :
    ∀ {s : List Char} {i : Nat}, strchrIdx c s = some i → i < s.length := by
  intro s
  induction s with
  | nil => intro i h; simp [strchrIdx] at h
  | cons x xs ih =>
    intro i h
    simp only [strchrIdx] at h
    by_cases hx : x = c
    · rw [if_pos hx] at h
      simp at h
      subst h
      simp
    · rw [if_neg hx] at h
      cases hrec : strchrIdx c xs with
      | none => rw [hrec] at h; simp at h
      | some j =>
        rw [hrec] at h
        simp at h
        subst h
        have := ih hrec
        simp
        omega

/-- Split a buffer into `\n`-separated segments exactly as the pointer
walk in `_push_headers_table` (a trailing `\n` yields no final empty
segment, because the loop stops at the terminator). -/
def splitSegsF : Nat → List Char → List (List Char)
  | 0, _ => []
  | fuel + 1, s =>
    if s = [] then []
    else
      match strchrIdx '\n' s with
      | none => [s]
      | some i => s.take i :: splitSegsF fuel (s.drop (i + 1))

/-- Entry point of the segment walk (each segment consumes at least
one byte, so the fuel is never exhausted). -/
def splitSegs (s : List Char) : List (List Char) :=
  splitSegsF (s.length + 1) s

/-- The headers table pushed by `_push_headers_table`, as the list of
(name, value) pairs in insertion order. -/
def pushHeadersTable (raw : List Char) : List (List Char × List Char) :=
  (splitSegs raw).filterMap pushHeadersOne

theorem char_toNat_ofNat {n : Nat} (h : n.isValidChar) : (Char.ofNat n).toNat = n := by
  unfold Char.ofNat
  rw [dif_pos h]
  rfl

theorem asciiLower_idem (c : Char) : asciiLower (asciiLower c) = asciiLower c := by
  unfold asciiLower
  by_cases h : 'A' ≤ c ∧ c ≤ 'Z'
  · rw [if_pos h]
    have h65 : 65 ≤ c.toNat := h.1
    have h90 : c.toNat ≤ 90 := h.2
    have hv : Nat.isValidChar (c.toNat + 32) := by left; omega
    have ht : (Char.ofNat (c.toNat + 32)).toNat = c.toNat + 32 := char_toNat_ofNat hv
    rw [if_neg]
    intro hh
    have h1 : 65 ≤ (Char.ofNat (c.toNat + 32)).toNat := hh.1
    have h2 : (Char.ofNat (c.toNat + 32)).toNat ≤ 90 := hh.2
    omega
  · rw [if_neg h, if_neg h]

theorem map_asciiLower_idem (l : List Char) :
    (l.map asciiLower).map asciiLower = l.map asciiLower := by
  induction l with
  | nil => rfl
  | cons c t ih => simp [asciiLower_idem, ih]

/-- `mt_http_request_result`: while the worker is still running it
returns immediately with a placeholder 4-tuple; on error it returns
the error string; on success it returns the body (none when an output
file was written), the status code, and the headers table. -/
def request_result (r : ReqSnapshot) :
    Option (List Char) × Int × List (List Char × List Char) × Option (List Char) :=
  if r.state = 0 then
    (none, 0, [], some ("request still in progress".toList))
  else if r.state = 2 then
    (none, 0, [], some r.error)
  else
    ((if r.has_output_path then none else some r.body),
     r.status_code, pushHeadersTable r.headers_raw, none)

theorem strchrIdx_eq_none {c : Char} :
    ∀ {s : List Char}, c ∉ s → strchrIdx c s = none := by
  intro s
  induction s with
  | nil => intro _; rfl
  | cons x xs ih =>
    intro h
    simp at h
    simp [strchrIdx, Ne.symm h.1, ih h.2]

theorem strchrIdx_not_mem_take {c : Char} :
    ∀ {s : List Char} {i : Nat}, strchrIdx c s = some i → c ∉ s.take i := by
  intro s
  induction s with
  | nil => intro i h; simp [strchrIdx] at h
  | cons x xs ih =>
    intro i h
    simp only [strchrIdx] at h
    by_cases hx : x = c
    · rw [if_pos hx] at h
      simp at h
      subst h
      simp
    · rw [if_neg hx] at h
      cases hrec : strchrIdx c xs with
      | none => rw [hrec] at h; simp at h
      | some j =>
        rw [hrec] at h
        simp at h
        subst h
        simp [List.take_cons]
        exact ⟨fun hc => hx hc.symm, ih hrec⟩

theorem strchrIdx_head_drop {c : Char} :
    ∀ {s : List Char} {i : Nat}, strchrIdx c s = some i → (s.drop i).head? = some c := by
  intro s
  induction s with
  | nil => intro i h; simp [strchrIdx] at h
  | cons x xs ih =>
    intro i h
    simp only [strchrIdx] at h
    by_cases hx : x = c
    · rw [if_pos hx] at h
      simp at h
      subst h
      simp [hx]
    · rw [if_neg hx] at h
      cases hrec : strchrIdx c xs with
      | none => rw [hrec] at h; simp at h
      | some j =>
        rw [hrec] at h
        simp at h
        subst h
        simpa using ih hrec

theorem strchrIdx_append_of_not_mem {c : Char} {l : List Char} (hl : c ∉ l) :
    ∀ r, strchrIdx c (l ++ r) = (strchrIdx c r).map (· + l.length) := by
  induction l with
  | nil => intro r; simp
  | cons x xs ih =>
    intro r
    simp at hl
    simp only [List.cons_append, strchrIdx, if_neg (Ne.symm hl.1)]
    show (strchrIdx c (xs ++ r)).map (· + 1) = _
    rw [ih hl.2 r]
    cases strchrIdx c r with
    | none => rfl
    | some j => simp; omega

theorem strchrIdx_cons_self (c : Char) (t : List Char) :
    strchrIdx c (c :: t) = some 0 := by
  simp [strchrIdx]

theorem strchrIdx_none_not_mem {c : Char} :
    ∀ {s : List Char}, strchrIdx c s = none → c ∉ s := by
  intro s
  induction s with
  | nil => intro _; simp
  | cons x xs ih =>
    intro h
    simp only [strchrIdx] at h
    by_cases hx : x = c
    · rw [if_pos hx] at h; simp at h
    · rw [if_neg hx] at h
      cases hrec : strchrIdx c xs with
      | none => simp [Ne.symm hx, ih hrec]
      | some j => rw [hrec] at h; simp at h

theorem head?_take_succ {l : List Char} {a : Char} (h : l.head? = some a) (n : Nat) :
    (l.take (n + 1)).head? = some a := by
  cases l with
  | nil => simp at h
  | cons x t => simp at h; simp [h]

/-- The structural facts `_url_parse` guarantees about its output:
bounded fields, the separators excluded from host and port, and a path
that starts with `/`. -/
def UrlWf (p : ParsedUrl) : Prop :=
  p.host.length ≤ 255 ∧ '/' ∉ p.host ∧ ':' ∉ p.host ∧
  p.port.length ≤ 7 ∧ '/' ∉ p.port ∧
  p.path.head? = some '/' ∧ p.path.length ≤ 2047

theorem path_wf_of_slash {u : List Char} {si : Nat}
    (hsl : strchrIdx '/' u = some si) :
    ((u.drop si).take 2047).head? = some '/' ∧ ((u.drop si).take 2047).length ≤ 2047 := by
  have hh := strchrIdx_head_drop hsl
  constructor
  · have : (2046 : Nat) + 1 = 2047 := rfl
    rw [← this]
    exact head?_take_succ hh 2046
  · exact List.length_take_le _ _

theorem not_mem_take_of_le {c : Char} {u : List Char} {i j : Nat}
    (hle : i ≤ j) (hj : c ∉ u.take j) : c ∉ u.take i := by
  intro hmem
  have h1 : (u.take j).take i = u.take i := by
    rw [List.take_take]
    congr 1
    omega
  rw [← h1] at hmem
  exact hj (List.take_subset _ _ hmem)

theorem defaultPort_wf (b : Bool) :
    ((if b then "443" else "80").toList).length ≤ 7 ∧
      '/' ∉ ((if b then "443" else "80").toList) := by
  cases b <;> simp

theorem urlParseAfterScheme_wf {b : Bool} {u : List Char} {p : ParsedUrl}
    (h : urlParseAfterScheme b u = some p) : UrlWf p := by
  unfold urlParseAfterScheme at h
  cases hsl : strchrIdx '/' u with
  | some si =>
    cases hcol0 : strchrIdx ':' u with
    | some ci =>
      rw [hsl, hcol0] at h
      simp only at h
      by_cases hlt : si < ci
      · rw [if_pos hlt] at h
        simp only at h
        split at h
        · exact absurd h (by simp)
        · simp at h
          subst h
          simp only [UrlWf]
          refine ⟨by omega, strchrIdx_not_mem_take hsl, ?_, ?_, ?_, ?_, ?_⟩
          · exact not_mem_take_of_le (by omega) (strchrIdx_not_mem_take hcol0)
          · exact (defaultPort_wf b).1
          · exact (defaultPort_wf b).2
          · exact (path_wf_of_slash hsl).1
          · exact (path_wf_of_slash hsl).2
      · rw [if_neg hlt] at h
        simp only at h
        split at h
        · exact absurd h (by simp)
        · split at h
          · exact absurd h (by simp)
          · simp at h
            subst h
            simp only [UrlWf]
            refine ⟨by omega, ?_, strchrIdx_not_mem_take hcol0, by omega, ?_, ?_, ?_⟩
            · exact not_mem_take_of_le (by omega) (strchrIdx_not_mem_take hsl)
            · intro hmem
              have heq : (u.take si).drop (ci + 1) = (u.drop (ci + 1)).take (si - (ci + 1)) :=
                List.drop_take si (ci + 1) u
              rw [← heq] at hmem
              exact strchrIdx_not_mem_take hsl (List.drop_subset _ _ hmem)
            · exact (path_wf_of_slash hsl).1
            · exact (path_wf_of_slash hsl).2
    | none =>
      rw [hsl, hcol0] at h
      simp only at h
      split at h
      · exact absurd h (by simp)
      · simp at h
        subst h
        simp only [UrlWf]
        refine ⟨by omega, strchrIdx_not_mem_take hsl, ?_, ?_, ?_, ?_, ?_⟩
        · intro hmem
          exact strchrIdx_none_not_mem hcol0 (List.take_subset _ _ hmem)
        · exact (defaultPort_wf b).1
        · exact (defaultPort_wf b).2
        · exact (path_wf_of_slash hsl).1
        · exact (path_wf_of_slash hsl).2
  | none =>
    cases hcol0 : strchrIdx ':' u with
    | some ci =>
      rw [hsl, hcol0] at h
      simp only at h
      split at h
      · exact absurd h (by simp)
      · split at h
        · exact absurd h (by simp)
        · simp at h
          subst h
          simp only [UrlWf]
          refine ⟨by omega, ?_, strchrIdx_not_mem_take hcol0, by omega, ?_, by simp, by simp⟩
          · intro hmem
            exact strchrIdx_none_not_mem hsl (List.take_subset _ _ hmem)
          · intro hmem
            have h1 : '/' ∈ u.drop (ci + 1) := List.take_subset _ _ hmem
            exact strchrIdx_none_not_mem hsl (List.drop_subset _ _ h1)
    | none =>
      rw [hsl, hcol0] at h
      simp only at h
      split at h
      · exact absurd h (by simp)
      · rename_i hguard
        simp at h
        subst h
        simp only [UrlWf]
        simp only [List.take_length, not_le] at hguard
        refine ⟨?_, ?_, ?_, ?_, ?_, by simp, by simp⟩
        · omega
        · intro hmem
          exact strchrIdx_none_not_mem hsl hmem
        · intro hmem
          exact strchrIdx_none_not_mem hcol0 hmem
        · exact (defaultPort_wf b).1
        · exact (defaultPort_wf b).2

theorem url_parse_scheme (b : Bool) (rest : List Char) :
    url_parse (schemeStr b ++ rest) = urlParseAfterScheme b rest := by
  cases b with
  | true =>
    show url_parse ("https://".toList ++ rest) = _
    unfold url_parse
    have h : ("https://".toList).length = 8 := rfl
    rw [if_pos (by rw [← h, List.take_left]), ← h, List.drop_left]
  | false =>
    show url_parse ("http://".toList ++ rest) = _
    unfold url_parse
    have hne : ("http://".toList ++ rest).take 8 ≠ "https://".toList := by
      cases rest with
      | nil => decide
      | cons c t =>
        have h7 : "http://".toList = ['h', 't', 't', 'p', ':', '/', '/'] := rfl
        have h8 : "https://".toList = ['h', 't', 't', 'p', 's', ':', '/', '/'] := rfl
        rw [h7, h8]
        simp
    have h : ("http://".toList).length = 7 := rfl
    rw [if_neg hne, if_pos (by rw [← h, List.take_left]), ← h, List.drop_left]

theorem url_parse_wf {url : List Char} {p : ParsedUrl}
    (h : url_parse url = some p) : UrlWf p := by
  unfold url_parse at h
  split at h
  · exact urlParseAfterScheme_wf h
  · split at h
    · exact urlParseAfterScheme_wf h
    · simp at h

/-- Parsing the rendered form `host ++ ':' :: port ++ path` back: the
separators inside host and port are absent, the path starts with `/`,
so the split recovers exactly the components (path truncated as always
by the `snprintf`). -/
theorem urlParseAfterScheme_render (b : Bool) (h p pa : List Char)
    (hh1 : h.length ≤ 255) (hh2 : '/' ∉ h) (hh3 : ':' ∉ h)
    (hp1 : p.length ≤ 7) (hp2 : '/' ∉ p)
    (hpa : pa.head? = some '/') :
    urlParseAfterScheme b (h ++ ':' :: (p ++ pa)) =
      some { https := b, host := h, port := p, path := pa.take 2047 } := by
  obtain ⟨pt, hpt⟩ : ∃ t, pa = '/' :: t := by
    cases pa with
    | nil => simp at hpa
    | cons x t => simp at hpa; exact ⟨t, by rw [hpa]⟩
  have hcolon : strchrIdx ':' (h ++ ':' :: (p ++ pa)) = some h.length := by
    rw [strchrIdx_append_of_not_mem hh3, strchrIdx_cons_self]
    simp
  have hpslash : strchrIdx '/' (p ++ pa) = some p.length := by
    rw [strchrIdx_append_of_not_mem hp2, hpt, strchrIdx_cons_self]
    simp
  have hslash : strchrIdx '/' (h ++ ':' :: (p ++ pa)) = some (p.length + 1 + h.length) := by
    rw [strchrIdx_append_of_not_mem hh2]
    have h2 : strchrIdx '/' (':' :: (p ++ pa)) = some (p.length + 1) := by
      simp only [strchrIdx, if_neg (by decide : ¬(':' : Char) = '/'), hpslash]
      rfl
    rw [h2]
    rfl
  have hhost : (h ++ ':' :: (p ++ pa)).take h.length = h := List.take_left h _
  have hdrop1 : (h ++ ':' :: (p ++ pa)).drop (h.length + 1) = p ++ pa := by
    have hassoc : h ++ ':' :: (p ++ pa) = (h ++ [':']) ++ (p ++ pa) := by
      simp
    have hlen : (h ++ [':']).length = h.length + 1 := by simp
    rw [hassoc, ← hlen, List.drop_left]
  have hport : ((h ++ ':' :: (p ++ pa)).drop (h.length + 1)).take
      (p.length + 1 + h.length - (h.length + 1)) = p := by
    rw [hdrop1]
    have : p.length + 1 + h.length - (h.length + 1) = p.length := by omega
    rw [this, List.take_left]
  have hpath : (h ++ ':' :: (p ++ pa)).drop (p.length + 1 + h.length) = pa := by
    have hassoc : h ++ ':' :: (p ++ pa) = (h ++ ':' :: p) ++ pa := by
      simp
    have hlen : (h ++ ':' :: p).length = p.length + 1 + h.length := by
      simp; omega
    rw [hassoc, ← hlen, List.drop_left]
  unfold urlParseAfterScheme
  rw [hslash, hcolon]
  simp only
  rw [if_neg (by omega : ¬(p.length + 1 + h.length < h.length))]
  simp only
  rw [hhost]
  rw [if_neg (by omega : ¬(256 ≤ h.length))]
  rw [hport]
  rw [if_neg (by omega : ¬(8 ≤ p.length))]
  rw [hpath]

theorem strtol64_eq_zero_of_no_digits {s : List Char} (h : strtolDigits s = []) :
    strtol64 s = 0 := by
  unfold strtolDigits at h
  simp only [strtol64]
  rw [h]
  cases hsign : (strtolSign (s.dropWhile (fun c => isSpaceC c))).1 <;>
    simp [natOfDigits]

theorem pushHeadersTable_names_lower (raw : List Char) :
    ∀ nv ∈ pushHeadersTable raw, nv.1.map asciiLower = nv.1 := by
  intro nv hmem
  unfold pushHeadersTable at hmem
  rw [List.mem_filterMap] at hmem
  obtain ⟨seg, hseg, hone⟩ := hmem
  unfold pushHeadersOne at hone
  cases hci : strchrIdx ':' seg with
  | none => rw [hci] at hone; simp at hone
  | some ci =>
    rw [hci] at hone
    simp only [Option.some.injEq] at hone
    have hfst : nv.1 = ((seg.take ci).take 255).map asciiLower := by
      rw [← hone]
    rw [hfst, map_asciiLower_idem]

/-- C1: the spec says the chunk-size line is parsed as the numeric
value of its maximal leading hex prefix, stopping at the first non-hex
character, so that the line `a;ext` yields size 10.  The source's
`_hex_to_u64` executes `val <<= 4` before classifying the character, so
the terminating non-hex character leaves the accumulator shifted once
more: `a;ext` parses to 160 (= 16 x 10), not 10.  The spec describes
the evident intent (stop *before* incorporating the terminator); the
code is a slip. -/
theorem C1_hex_chunk_size_shift_bug :
    hex_to_u64 ("a;ext".toList) = 160 ∧
      hexPrefixVal ("a;ext".toList) 0 = 10 ∧ (160 : Nat) ≠ 10 :=
  ⟨rfl, rfl, by decide⟩

/-- C5 counterexample: the claim says a `\r` not followed by `\n` is
preserved as data and the line ends at the first CRLF, so the stream
`\r\r\n` should produce the line `\r`.  The source consumes TWO bytes
whenever it reads a `\r` (the lookahead byte is appended as data even
when it is itself `\r`), so the CRLF starting at offset 1 is never
recognised and the read fails at end of input instead. -/
theorem C5_read_line_counterexample :
    read_line ("\r\r\n".toList) = none ∧
      read_line ("\r\r\n".toList) ≠ some (("\r".toList), ([] : List Char)) :=
  ⟨rfl, by decide⟩

/-- C5 amended: `_read_line` returns the bytes before a terminating
CRLF with the CRLF excluded, and end of input before a terminating CRLF
is a parse error; but scanning is greedy in byte pairs: reading a `\r`
always consumes the following byte too, and when that byte is not `\n`
both are kept as data and scanning resumes after them, so a CRLF whose
`\r` was consumed as such a lookahead byte is not recognised (hence
`\r\r\n` is a parse error, not the line `\r`). -/
theorem C5_read_line_amended :
    (∀ l r : List Char, '\r' ∉ l → read_line (l ++ '\r' :: '\n' :: r) = some (l, r)) ∧
    (∀ (c : Char) (rest : List Char), c ≠ '\n' →
      read_line ('\r' :: c :: rest) =
        (read_line rest).map (fun q => ('\r' :: c :: q.1, q.2))) ∧
    (∀ s : List Char, '\r' ∉ s → read_line s = none) := by
  refine ⟨?_, ?_, ?_⟩
  · intro l
    induction l with
    | nil => intro r _; simp [read_line]
    | cons x t ih =>
      intro r hmem
      simp at hmem
      rw [List.cons_append, read_line.eq_def]
      simp only [if_neg (Ne.symm hmem.1)]
      rw [ih r hmem.2]
  · intro c rest hc
    rw [read_line.eq_def]
    simp only [if_pos rfl, if_neg hc]
    cases read_line rest with
    | none => rfl
    | some q => rfl
  · intro s
    induction s with
    | nil => intro _; rfl
    | cons x t ih =>
      intro hmem
      simp at hmem
      rw [read_line.eq_def]
      simp only [if_neg (Ne.symm hmem.1)]
      rw [ih hmem.2]

/-- Witness for C5 amended at concrete inputs. -/
theorem C5_read_line_amended_witness :
    read_line (("ab".toList) ++ '\r' :: '\n' :: ("cd".toList)) =
        some ("ab".toList, "cd".toList) ∧
      read_line ('\r' :: 'x' :: ("ab".toList)) =
        (read_line ("ab".toList)).map (fun q => ('\r' :: 'x' :: q.1, q.2)) ∧
      read_line ("ab".toList) = none :=
  ⟨C5_read_line_amended.1 _ _ (by decide),
   C5_read_line_amended.2.1 'x' _ (by decide),
   C5_read_line_amended.2.2 _ (by decide)⟩

/-- C8: with an output path and a positive pre-existing file size,
status 206 opens the file for append, pre-seeds the downloaded counter
with the resume offset and, when the content length is known, reports
the total as content length + resume offset; status 200 opens the file
for truncate/write and resets the resume offset to 0. -/
theorem C8_resume_output_selection (ro st cl pd pt : Int) (hro : 0 < ro) :
    (st = 206 →
      (selectOutput ro st cl pd pt).append = true ∧
        (selectOutput ro st cl pd pt).downloaded = ro ∧
        (0 ≤ cl → (selectOutput ro st cl pd pt).total = cl + ro)) ∧
    (st = 200 →
      (selectOutput ro st cl pd pt).append = false ∧
        (selectOutput ro st cl pd pt).resume = 0) := by
  constructor
  · intro h206
    subst h206
    unfold selectOutput
    rw [if_pos ⟨hro, rfl⟩]
    refine ⟨rfl, rfl, ?_⟩
    intro hcl
    simp [if_pos hcl]
  · intro h200
    subst h200
    unfold selectOutput
    rw [if_neg (by simp)]
    exact ⟨rfl, rfl⟩

/-- Witness for C8: resuming a 100-byte file against a 206 with
`Content-Length: 50` appends with total 150; against a 200 it truncates
and clears the offset (scenario 5 of the spec). -/
theorem C8_resume_output_selection_witness :
    (selectOutput 100 206 50 0 50).append = true ∧
      (selectOutput 100 206 50 0 50).downloaded = 100 ∧
      (selectOutput 100 206 50 0 50).total = 150 ∧
      (selectOutput 100 200 50 0 50).append = false ∧
      (selectOutput 100 200 50 0 50).resume = 0 := by
  have h1 := C8_resume_output_selection 100 206 50 0 50 (by decide)
  have h2 := C8_resume_output_selection 100 200 50 0 50 (by decide)
  refine ⟨(h1.1 rfl).1, (h1.1 rfl).2.1, ?_, (h2.2 rfl).1, (h2.2 rfl).2⟩
  have h3 := (h1.1 rfl).2.2 (by decide)
  rw [h3]
  decide

/-- C10: when the status line contains no parsable integer after the
first run of non-space characters, `strtol` returns 0 and the recorded
status code is 0; the worker raises no error for it and response
processing continues normally (the concrete run completes with
lifecycle done, status 0 and the framed body). -/
theorem C10_garbage_status_line :
    (∀ line : List Char,
        strtolDigits ((line.dropWhile (fun c => c ≠ ' ')).dropWhile (fun c => c = ' ')) = [] →
        parseStatusCode line = 0) ∧
      workerRun (fun _ => ("GARBAGE NOTANUMBER\r\nContent-Length: 2\r\n\r\nhi".toList))
          ("GET".toList) ("http://h/p".toList) =
        { state := 1, status_code := 0, body := ("hi".toList),
          headers_raw := ("Content-Length: 2\n".toList), error := [],
          issued := [(("GET".toList), ("http://h/p".toList))] } := by
  constructor
  · intro line h
    unfold parseStatusCode
    rw [strtol64_eq_zero_of_no_digits h]
    decide
  · rfl

/-- Witness for C10 at the garbage status line the run uses. -/
theorem C10_garbage_status_line_witness :
    parseStatusCode ("GARBAGE NOTANUMBER".toList) = 0 :=
  C10_garbage_status_line.1 ("GARBAGE NOTANUMBER".toList) (by decide)

/-- C2 counterexample: the claim says `result` blocks until the request
reaches a terminal state and never returns early with a placeholder
while it is still running.  `mt_http_request_result` checks the
lifecycle word once and, when it is still `running` (0), returns
immediately with the placeholder (nil body, status 0, empty headers
table, "request still in progress") — here while the snapshot's actual
status field is already 200. -/
theorem C2_result_counterexample :
    request_result { state := 0, has_output_path := false, body := ("hello".toList),
                     headers_raw := ("Content-Length: 5\n".toList), status_code := 200,
                     error := [] } =
      (none, 0, [], some ("request still in progress".toList)) := rfl

/-- C2 amended: `result` does NOT block; while the lifecycle is
`running` it returns immediately with a placeholder 4-tuple.  Once the
lifecycle is terminal it behaves as claimed: on `error` it returns the
error message; on `done` it returns the status, a headers table whose
names are lowercased, and a body that is none whenever an output file
was configured. -/
theorem C2_result_amended (r : ReqSnapshot) :
    (r.state = 0 →
      request_result r = (none, 0, [], some ("request still in progress".toList))) ∧
    (r.state = 2 → request_result r = (none, 0, [], some r.error)) ∧
    (r.state = 1 →
      request_result r =
        ((if r.has_output_path then none else some r.body), r.status_code,
          pushHeadersTable r.headers_raw, none) ∧
      ∀ nv ∈ pushHeadersTable r.headers_raw, nv.1.map asciiLower = nv.1) := by
  refine ⟨?_, ?_, ?_⟩
  · intro h0
    unfold request_result
    rw [if_pos h0]
  · intro h2
    unfold request_result
    rw [if_neg (by omega), if_pos h2]
  · intro h1
    constructor
    · unfold request_result
      rw [if_neg (by omega), if_neg (by omega)]
    · exact pushHeadersTable_names_lower r.headers_raw

/-- Witness for C2 amended at the three lifecycle values, including a
concrete lowercased header name. -/
theorem C2_result_amended_witness :
    request_result { state := 0, has_output_path := false, body := [], headers_raw := [],
                     status_code := 0, error := [] } =
      (none, 0, [], some ("request still in progress".toList)) ∧
    request_result { state := 2, has_output_path := false, body := [], headers_raw := [],
                     status_code := 0, error := ("boom".toList) } =
      (none, 0, [], some ("boom".toList)) ∧
    request_result { state := 1, has_output_path := true, body := ("hi".toList),
                     headers_raw := ("A-B: c\n".toList), status_code := 200, error := [] } =
      (none, 200, pushHeadersTable ("A-B: c\n".toList), none) ∧
    ("a-b".toList).map asciiLower = "a-b".toList := by
  have h0 := C2_result_amended
    { state := 0, has_output_path := false, body := [], headers_raw := [],
      status_code := 0, error := [] }
  have h2 := C2_result_amended
    { state := 2, has_output_path := false, body := [], headers_raw := [],
      status_code := 0, error := ("boom".toList) }
  have h1 := C2_result_amended
    { state := 1, has_output_path := true, body := ("hi".toList),
      headers_raw := ("A-B: c\n".toList), status_code := 200, error := [] }
  refine ⟨h0.1 rfl, h2.2.1 rfl, ?_, ?_⟩
  · have := (h1.2.2 rfl).1
    simpa using this
  · exact (h1.2.2 rfl).2 (("a-b".toList), ("c".toList)) (by decide)

/-- C4 counterexample: the claim says every EOF or error from the
connection while reading the body — including while reading a
chunk-size line — sets the lifecycle to error.  In the source the
chunked loop's `if (!_read_line(&conn, &line)) break;` treats EOF on
a chunk-size line as the end of the body: the run below, whose
connection closes immediately after the headers of a chunked response,
terminates with lifecycle done (1) and an empty error. -/
theorem C4_chunked_eof_counterexample :
    (workerRun (fun _ => ("HTTP/1.1 200 OK\r\nTransfer-Encoding: chunked\r\n\r\n".toList))
        ("GET".toList) ("http://h/p".toList)).state = 1 ∧
      (workerRun (fun _ => ("HTTP/1.1 200 OK\r\nTransfer-Encoding: chunked\r\n\r\n".toList))
          ("GET".toList) ("http://h/p".toList)).error = [] :=
  ⟨rfl, rfl⟩

/-- C4 amended: EOF or error while reading chunk DATA bytes errors with
"failed to read chunked body", and EOF short of `Content-Length` bytes
errors with "failed to read body"; but EOF while reading a chunk-size
line silently terminates the chunked loop as success (and failures on
trailing CRLF lines are ignored). -/
theorem C4_body_io_errors_amended :
    (∀ s acc line r : List Char, read_line s = some (line, r) → hex_to_u64 line ≠ 0 →
      read_exact r (hex_to_u64 line) = none →
      readChunkedLoop s acc = .err ("failed to read chunked body".toList)) ∧
    (∀ (s : List Char) (n : Int), 0 ≤ n → s.length < n.toNat →
      readBody false n s = .err ("failed to read body".toList)) ∧
    (∀ s acc : List Char, read_line s = none → readChunkedLoop s acc = .ok acc) := by
  refine ⟨?_, ?_, ?_⟩
  · intro s acc line r hrl hsz hre
    unfold readChunkedLoop
    simp only [readChunkedLoopF, hrl, hre]
    rw [if_neg hsz]
  · intro s n hn hlen
    unfold readBody
    rw [if_neg (by simp), if_pos hn]
    have hre : read_exact s n.toNat = none := by
      unfold read_exact
      rw [if_neg (by omega)]
    rw [hre]
  · intro s acc hrl
    unfold readChunkedLoop
    simp only [readChunkedLoopF, hrl]

/-- Witness for C4 amended: a chunk announcing 5 bytes over a stream
holding only 2, a Content-Length of 5 over a 2-byte stream, and a
stream that ends inside the chunk-size line. -/
theorem C4_body_io_errors_amended_witness :
    readChunkedLoop ("5\r\nab".toList) [] = .err ("failed to read chunked body".toList) ∧
      readBody false 5 ("ab".toList) = .err ("failed to read body".toList) ∧
      readChunkedLoop ("4".toList) ("xy".toList) = .ok ("xy".toList) :=
  ⟨C4_body_io_errors_amended.1 ("5\r\nab".toList) [] ("5".toList) ("ab".toList)
      (by decide) (by decide) (by decide),
   C4_body_io_errors_amended.2.1 ("ab".toList) 5 (by decide) (by decide),
   C4_body_io_errors_amended.2.2 ("4".toList) ("xy".toList) (by decide)⟩

/-- The per-line condition under which the header loop sets the
`chunked` flag: a `transfer-encoding` name (case-insensitive, length
17) whose value contains the substring `chunked` or `Chunked`. -/
def teChunkedLine (line : List Char) : Bool :=
  match strchrIdx ':' line with
  | none => false
  | some ci =>
    (line.take ci).length = 17 && ci_eq (line.take ci) ("transfer-encoding".toList) &&
      (strstrB ((line.drop (ci + 1)).dropWhile (fun c => c = ' ')) ("chunked".toList) ||
        strstrB ((line.drop (ci + 1)).dropWhile (fun c => c = ' ')) ("Chunked".toList))

theorem scanHeader_chunked (info : HeaderInfo) (line : List Char) :
    (scanHeader info line).chunked = (info.chunked || teChunkedLine line) := by
  unfold scanHeader teChunkedLine
  cases hci : strchrIdx ':' line with
  | none => simp
  | some ci =>
    simp only
    split_ifs with h1 h2 h3 h4 <;> simp_all

theorem scanHeaders_chunked_any (lines : List (List Char)) :
    ∀ info : HeaderInfo,
      (lines.foldl scanHeader info).chunked = (info.chunked || lines.any teChunkedLine) := by
  induction lines with
  | nil => intro info; simp
  | cons l t ih =>
    intro info
    simp only [List.foldl_cons, List.any_cons]
    rw [ih (scanHeader info l), scanHeader_chunked]
    rw [Bool.or_assoc]

/-- C6 counterexample: the claim says framing is chunked whenever a
`Transfer-Encoding` value contains "chunked" case-insensitively.  The
source only searches for the exact substrings `chunked` and `Chunked`,
so the value `CHUNKED` — case-insensitively equal to `chunked` by the
source's own comparator `ci_eq` — does not set the chunked flag. -/
theorem C6_framing_counterexample :
    (scanHeaders [("Transfer-Encoding: CHUNKED".toList)]).chunked = false ∧
      ci_eq ("CHUNKED".toList) ("chunked".toList) = true :=
  ⟨rfl, rfl⟩

/-- C6 amended: framing priority as claimed, with the corrected
trigger: chunked whenever some header line is a `transfer-encoding`
whose value contains the substring `chunked` or `Chunked` (these two
spellings only), regardless of `Content-Length`; otherwise fixed-length
of exactly `Content-Length` bytes when that parsed to a non-negative
value; otherwise read-to-close (everything until EOF). -/
theorem C6_framing_priority_amended (lines : List (List Char)) (s : List Char) :
    (lines.any teChunkedLine = true →
      readBody (scanHeaders lines).chunked (scanHeaders lines).content_length s =
        readChunkedLoop s []) ∧
    (lines.any teChunkedLine = false → 0 ≤ (scanHeaders lines).content_length →
      readBody (scanHeaders lines).chunked (scanHeaders lines).content_length s =
        (if (scanHeaders lines).content_length.toNat ≤ s.length
          then .ok (s.take (scanHeaders lines).content_length.toNat)
          else .err ("failed to read body".toList))) ∧
    (lines.any teChunkedLine = false → (scanHeaders lines).content_length < 0 →
      readBody (scanHeaders lines).chunked (scanHeaders lines).content_length s = .ok s) := by
  have hch : (scanHeaders lines).chunked = lines.any teChunkedLine := by
    unfold scanHeaders
    rw [scanHeaders_chunked_any lines initHeaderInfo]
    rfl
  refine ⟨?_, ?_, ?_⟩
  · intro hany
    unfold readBody
    rw [hch, hany, if_pos rfl]
  · intro hany hcl
    unfold readBody
    rw [hch, hany]
    rw [if_neg (by simp), if_pos hcl]
    unfold read_exact
    split_ifs with hle
    · rfl
    · rfl
  · intro hany hcl
    unfold readBody
    rw [hch, hany]
    rw [if_neg (by simp), if_neg (by omega)]

/-- Witness for C6 amended: chunked wins over `Content-Length`
(scenario 2's body), plain fixed-length, and read-to-close. -/
theorem C6_framing_priority_amended_witness :
    readBody (scanHeaders [("Transfer-Encoding: chunked".toList),
          ("Content-Length: 3".toList)]).chunked
        (scanHeaders [("Transfer-Encoding: chunked".toList),
          ("Content-Length: 3".toList)]).content_length
        ("4\r\nWiki\r\n5\r\npedia\r\n0\r\n\r\n".toList) =
      readChunkedLoop ("4\r\nWiki\r\n5\r\npedia\r\n0\r\n\r\n".toList) [] ∧
    readBody (scanHeaders [("Content-Length: 5".toList)]).chunked
        (scanHeaders [("Content-Length: 5".toList)]).content_length ("helloXX".toList) =
      (if (5 : Nat) ≤ 7 then BodyResult.ok ("hello".toList)
        else .err ("failed to read body".toList)) ∧
    readBody (scanHeaders ([] : List (List Char))).chunked
        (scanHeaders ([] : List (List Char))).content_length ("abc".toList) =
      .ok ("abc".toList) := by
  refine ⟨?_, ?_, ?_⟩
  · exact (C6_framing_priority_amended [("Transfer-Encoding: chunked".toList),
      ("Content-Length: 3".toList)] ("4\r\nWiki\r\n5\r\npedia\r\n0\r\n\r\n".toList)).1
      (by decide)
  · have h := (C6_framing_priority_amended [("Content-Length: 5".toList)]
      ("helloXX".toList)).2.1 (by decide) (by decide)
    rw [h]
    decide
  · exact (C6_framing_priority_amended ([] : List (List Char)) ("abc".toList)).2.2
      (by decide) (by decide)

/-- C9: URL parsing is a left inverse of formatting — for every string
the parser accepts, rendering `scheme://host:port path` back (with the
port as parsed) and parsing again returns the identical scheme flag,
host, port and path. -/
theorem C9_url_parse_roundtrip (url : List Char) (p : ParsedUrl)
    (h : url_parse url = some p) : url_parse (urlFormat p) = some p := by
  obtain ⟨hh1, hh2, hh3, hp1, hp2, hpa, hpal⟩ := url_parse_wf h
  unfold urlFormat
  simp only [List.append_assoc, List.cons_append]
  rw [url_parse_scheme]
  rw [urlParseAfterScheme_render p.https p.host p.port p.path hh1 hh2 hh3 hp1 hp2 hpa]
  rw [List.take_of_length_le hpal]

/-- Witness for C9 at `http://example.test/hello` (scenario 1's URL). -/
theorem C9_url_parse_roundtrip_witness :
    url_parse (urlFormat { https := false
                           host := ("example.test".toList)
                           port := ("80".toList)
                           path := ("/hello".toList) }) =
      some { https := false
             host := ("example.test".toList)
             port := ("80".toList)
             path := ("/hello".toList) } :=
  C9_url_parse_roundtrip ("http://example.test/hello".toList)
    { https := false
      host := ("example.test".toList)
      port := ("80".toList)
      path := ("/hello".toList) } (by decide)

/-- C3 counterexample: the claim says the redirect loop is bounded by
10 iterations and exhausts after those 10.  The source's loop condition
is `redirect_count <= MAX_REDIRECTS`, so the body runs for
`redirect_count = 0 .. 10`: with every response a redirect, ELEVEN
requests are transmitted before the loop exhausts (the terminal error
message itself is as claimed). -/
theorem C3_redirect_iterations_counterexample :
    (workerRun (fun _ => ("HTTP/1.1 301 Moved\r\nLocation: /x\r\n\r\n".toList))
        ("GET".toList) ("http://h/p".toList)).issued.length = 11 ∧
      (11 : Nat) ≠ 10 ∧
      (workerRun (fun _ => ("HTTP/1.1 301 Moved\r\nLocation: /x\r\n\r\n".toList))
          ("GET".toList) ("http://h/p".toList)).error =
        ("too many redirects (max 10)".toList) ∧
      (workerRun (fun _ => ("HTTP/1.1 301 Moved\r\nLocation: /x\r\n\r\n".toList))
          ("GET".toList) ("http://h/p".toList)).state = 2 :=
  ⟨rfl, by decide, rfl, rfl⟩

/-- Parsing the no-port rendering `host ++ path` succeeds whenever the
separators are absent from the host and the path starts with `/` (the
redirect resolver omits the `:port` part for a scheme-default port). -/
theorem urlParseAfterScheme_noport_isSome (b : Bool) (h pa : List Char)
    (hh1 : h.length ≤ 255) (hh2 : '/' ∉ h) (hh3 : ':' ∉ h)
    (hpa : pa.head? = some '/') :
    (urlParseAfterScheme b (h ++ pa)).isSome = true := by
  obtain ⟨pt, hpt⟩ : ∃ t, pa = '/' :: t := by
    cases pa with
    | nil => simp at hpa
    | cons x t => simp at hpa; exact ⟨t, by rw [hpa]⟩
  have hslash : strchrIdx '/' (h ++ pa) = some h.length := by
    rw [strchrIdx_append_of_not_mem hh2, hpt, strchrIdx_cons_self]
    simp
  have hhost : (h ++ pa).take h.length = h := List.take_left h pa
  cases hcp : strchrIdx ':' pa with
  | none =>
    have hcol : strchrIdx ':' (h ++ pa) = none := by
      rw [strchrIdx_append_of_not_mem hh3, hcp]
      rfl
    unfold urlParseAfterScheme
    rw [hslash, hcol]
    simp only
    rw [hhost]
    rw [if_neg (by omega)]
    simp
  | some j =>
    have hj : 1 ≤ j := by
      rw [hpt] at hcp
      simp only [strchrIdx, if_neg (by decide : ¬('/' : Char) = ':')] at hcp
      cases hrec : strchrIdx ':' pt with
      | none => rw [hrec] at hcp; simp at hcp
      | some j2 => rw [hrec] at hcp; simp at hcp; omega
    have hcol : strchrIdx ':' (h ++ pa) = some (j + h.length) := by
      rw [strchrIdx_append_of_not_mem hh3, hcp]
      rfl
    unfold urlParseAfterScheme
    rw [hslash, hcol]
    simp only
    rw [if_pos (by omega : h.length < j + h.length)]
    simp only
    rw [hhost]
    rw [if_neg (by omega)]
    simp

/-- A response stream whose status line parses to a redirect-class
status and whose headers carry a non-empty `Location` that the worker
can follow: either rooted at `/` (combined with the current
scheme/host/port) or an absolute URL the parser accepts (it replaces
the URL wholesale; an unparseable absolute `Location` instead ends the
run with "invalid URL", not redirect exhaustion).  Phrased through the
embedded reading functions themselves. -/
def redirectWithLocation (s : List Char) : Prop :=
  ∃ sl rest hl rest2,
    read_line s = some (sl, rest) ∧
    readHeaders rest = some (hl, rest2) ∧
    isRedirectStatus (parseStatusCode sl) = true ∧
    (scanHeaders hl).location ≠ [] ∧
    (((scanHeaders hl).location.head? = some '/') ∨
      (url_parse ((scanHeaders hl).location)).isSome = true)

theorem workerLoopF_all_redirects (responses : Nat → List Char)
    (hresp : ∀ i, redirectWithLocation (responses i)) :
    ∀ (fuel rc : Nat) (m url : List Char) (purl : ParsedUrl) (st0 : Int)
      (issued : List (List Char × List Char)),
      url_parse url = some purl →
      (workerLoopF responses fuel m url rc st0 issued).state = 2 ∧
      (workerLoopF responses fuel m url rc st0 issued).error =
        ("too many redirects (max 10)".toList) ∧
      (workerLoopF responses fuel m url rc st0 issued).issued.length =
        issued.length + fuel := by
  intro fuel
  induction fuel with
  | zero =>
    intro rc m url purl st0 issued hu
    simp [workerLoopF]
  | succ f ih =>
    intro rc m url purl st0 issued hu
    obtain ⟨sl, rest, hl, rest2, hsl, hh, hredir, hloc, hdisj⟩ := hresp rc
    obtain ⟨hh1, hh2, hh3, hp1, hp2, hpa, hpal⟩ := url_parse_wf hu
    have hres : ∃ p2, url_parse (resolveRedirect purl (scanHeaders hl).location) = some p2 := by
      by_cases hhead : (scanHeaders hl).location.head? = some '/'
      · unfold resolveRedirect
        rw [if_pos hhead]
        by_cases hpd : portNonDefault purl = true
        · rw [if_pos hpd, if_pos hpd]
          simp only [List.append_assoc, List.cons_append, List.nil_append]
          rw [url_parse_scheme]
          rw [urlParseAfterScheme_render purl.https purl.host purl.port
            ((scanHeaders hl).location) hh1 hh2 hh3 hp1 hp2 hhead]
          exact ⟨_, rfl⟩
        · rw [if_neg hpd, if_neg hpd]
          simp only [List.append_assoc, List.nil_append]
          rw [url_parse_scheme]
          have hx := urlParseAfterScheme_noport_isSome purl.https purl.host
            ((scanHeaders hl).location) hh1 hh2 hh3 hhead
          exact Option.isSome_iff_exists.mp hx
      · have hsome : (url_parse ((scanHeaders hl).location)).isSome = true :=
          hdisj.resolve_left hhead
        unfold resolveRedirect
        rw [if_neg hhead]
        exact Option.isSome_iff_exists.mp hsome
    obtain ⟨p2, hp2eq⟩ := hres
    have hrec := ih (rc + 1) (if parseStatusCode sl = 303 then ("GET".toList) else m)
      (resolveRedirect purl (scanHeaders hl).location) p2 (parseStatusCode sl)
      (issued ++ [(m, url)]) hp2eq
    simp only [workerLoopF, hu, hsl, hh]
    rw [if_pos ⟨hredir, hloc⟩]
    refine ⟨hrec.1, hrec.2.1, ?_⟩
    rw [hrec.2.2]
    simp
    omega

/-- C3 amended: the loop condition `redirect_count <= MAX_REDIRECTS`
admits ELEVEN iterations (`redirect_count = 0 .. 10`), i.e. the worker
follows at most 10 redirects; when every response is a redirect with a
`Location` header the worker can follow (rooted at `/`, or an absolute
URL the parser accepts), eleven requests are transmitted and the
request terminates in lifecycle error with exactly
"too many redirects (max 10)". -/
theorem C3_redirect_loop_amended (responses : Nat → List Char) (m url : List Char)
    (purl : ParsedUrl) (hu : url_parse url = some purl)
    (hresp : ∀ i, redirectWithLocation (responses i)) :
    (workerRun responses m url).state = 2 ∧
      (workerRun responses m url).error = ("too many redirects (max 10)".toList) ∧
      (workerRun responses m url).issued.length = 11 := by
  have h := workerLoopF_all_redirects responses hresp (MAX_REDIRECTS + 1) 0 m url purl 0 [] hu
  unfold workerRun
  exact ⟨h.1, h.2.1, by rw [h.2.2]; rfl⟩

/-- Witness for C3 amended: eleven hops of an ABSOLUTE
`Location: http://b.test/y` (scenario 3's redirect target), each
replacing the URL wholesale. -/
theorem C3_redirect_loop_amended_witness :
    (workerRun (fun _ => ("HTTP/1.1 301 Moved\r\nLocation: http://b.test/y\r\n\r\n".toList))
        ("GET".toList) ("http://a.test/x".toList)).state = 2 ∧
      (workerRun (fun _ => ("HTTP/1.1 301 Moved\r\nLocation: http://b.test/y\r\n\r\n".toList))
          ("GET".toList) ("http://a.test/x".toList)).error =
        ("too many redirects (max 10)".toList) ∧
      (workerRun (fun _ => ("HTTP/1.1 301 Moved\r\nLocation: http://b.test/y\r\n\r\n".toList))
          ("GET".toList) ("http://a.test/x".toList)).issued.length = 11 :=
  C3_redirect_loop_amended
    (fun _ => ("HTTP/1.1 301 Moved\r\nLocation: http://b.test/y\r\n\r\n".toList))
    ("GET".toList) ("http://a.test/x".toList)
    { https := false
      host := ("a.test".toList)
      port := ("80".toList)
      path := ("/x".toList) }
    (by decide)
    (fun i => ⟨("HTTP/1.1 301 Moved".toList), ("Location: http://b.test/y\r\n\r\n".toList),
      [("Location: http://b.test/y".toList)], [],
      show read_line ("HTTP/1.1 301 Moved\r\nLocation: http://b.test/y\r\n\r\n".toList) =
          some (("HTTP/1.1 301 Moved".toList), ("Location: http://b.test/y\r\n\r\n".toList))
        by decide,
      show readHeaders ("Location: http://b.test/y\r\n\r\n".toList) =
          some ([("Location: http://b.test/y".toList)], []) by decide,
      by decide, by decide, Or.inr (by decide)⟩)

end Spry
